import Mathlib

/-!
# Verification of the pinniped core: status aggregation, steady-state check,
# trust-material provider and rotation controller

This file is a shallow embedding, in Lean 4, of the core operations of the
pinniped repository, together with proofs of the specified properties.

* The Status Aggregator (`mergeStrategy`, `sortableStrategies` from
  `internal/here/issuerconfig`) is translated directly from the Go source:
  the `CredentialIssuer` status structures, the priority-weight table, the
  two-key comparator, the stable re-sort (`sort.Stable` becomes the stable
  `List.insertionSort` of Mathlib with the same comparator) and the deprecated
  `kubeConfigInfo` mirror.  The Go function mutates its argument and can
  panic on a nil-pointer dereference; the embedding is a pure function
  returning `Option CredentialIssuerStatus`, where `none` models the panic.
* The caller-side steady-state convergence check
  (`ensureKubeCertAgentSteadyState` from the integration tests) is embedded
  as a recursion over the list of per-pass observations.
* The Trust Material Provider and the Rotation Controller are modelled from
  the specification, since their implementations are not among the source
  files considered here (only their tests are); each such definition carries
  a doc comment saying exactly what is modelled.
-/

namespace Pinniped

/-! ## Data model of the CredentialIssuer status (from the v1alpha1 API types
as used by `mergeStrategy` and its tests) -/

/-- `v1alpha1.TokenCredentialRequestAPIInfo`: server URL and CA data published
for the token-credential-request frontend. -/
structure TokenCredentialRequestAPIInfo where
  server : String
  certificateAuthorityData : String
  deriving DecidableEq, Repr

/-- `v1alpha1.ImpersonationProxyInfo`: endpoint and CA data published for the
impersonation-proxy frontend. -/
structure ImpersonationProxyInfo where
  endpoint : String
  certificateAuthorityData : String
  deriving DecidableEq, Repr

/-- `v1alpha1.CredentialIssuerFrontend`: a frontend kind plus the optional
info pointer for each kind (`nil` pointers become `Option`). -/
structure CredentialIssuerFrontend where
  type : String
  tokenCredentialRequestAPIInfo : Option TokenCredentialRequestAPIInfo
  impersonationProxyInfo : Option ImpersonationProxyInfo
  deriving DecidableEq, Repr

/-- `v1alpha1.CredentialIssuerStrategy`: one strategy report.
`metav1.Time` is modelled as a `Nat` timestamp; only its equality matters
to the merge operation. -/
structure CredentialIssuerStrategy where
  type : String
  status : String
  reason : String
  message : String
  lastUpdateTime : Nat
  frontend : Option CredentialIssuerFrontend
  deriving DecidableEq, Repr

/-- `v1alpha1.CredentialIssuerKubeConfigInfo`: the deprecated singular mirror
field. -/
structure CredentialIssuerKubeConfigInfo where
  server : String
  certificateAuthorityData : String
  deriving DecidableEq, Repr

/-- `v1alpha1.CredentialIssuerStatus`: the ordered strategy list plus the
deprecated mirror. -/
structure CredentialIssuerStatus where
  strategies : List CredentialIssuerStrategy
  kubeConfigInfo : Option CredentialIssuerKubeConfigInfo
  deriving DecidableEq, Repr

/-- `v1alpha1.KubeClusterSigningCertificateStrategyType`. -/
def KubeClusterSigningCertificateStrategyType : String := "KubeClusterSigningCertificate"

/-- `v1alpha1.ImpersonationProxyStrategyType`. -/
def ImpersonationProxyStrategyType : String := "ImpersonationProxy"

/-- `v1alpha1.TokenCredentialRequestAPIFrontendType`. -/
def TokenCredentialRequestAPIFrontendType : String := "TokenCredentialRequestAPI"

/-! ## The Status Aggregator (`mergeStrategy` and `sortableStrategies`) -/

/-- Lexicographic comparison of character lists.  Go compares strings
byte-wise over their UTF-8 encodings; since UTF-8 byte order coincides with
code-point order, comparing the code points one at a time is the same
relation. -/
def lexLess : List Char → List Char → Bool
  | [], [] => false
  | [], _ :: _ => true
  | _ :: _, [] => false
  | c :: cs, d :: ds => if c < d then true else if d < c then false else lexLess cs ds

/-- Go's `<` on strings. -/
def goStringLess (a b : String) : Bool := lexLess a.data b.data

/-- The `weights` map of `issuerconfig`: a priority for each strategy type;
a Go map lookup yields the zero value `0` for unknown types. -/
def weights (t : String) : Nat :=
  if t = KubeClusterSigningCertificateStrategyType then 2
  else if t = ImpersonationProxyStrategyType then 1
  else 0

/-- `sortableStrategies.Less`: first compare configured weights (heavier
first), then type names (lexically ascending). -/
def sortableStrategiesLess (a b : CredentialIssuerStrategy) : Bool :=
  if weights a.type ≠ weights b.type then decide (weights a.type > weights b.type)
  else goStringLess a.type b.type

/-- The weak (non-strict) ordering induced by `sortableStrategiesLess`: `a`
may appear before `b` in a list sorted by `sort.Stable` exactly when `b` is
not strictly less than `a`. -/
def strategyLE (a b : CredentialIssuerStrategy) : Prop :=
  sortableStrategiesLess b a = false

instance : DecidableRel strategyLE := fun a b =>
  inferInstanceAs (Decidable (sortableStrategiesLess b a = false))

/-- `sort.Stable(sortableStrategies(...))`: a stable sort by
`sortableStrategiesLess`.  Mathlib's `List.insertionSort` is stable and sorts
by the given weak ordering, so it computes the same list as Go's
`sort.Stable` with this comparator. -/
def sortStrategies (l : List CredentialIssuerStrategy) : List CredentialIssuerStrategy :=
  List.insertionSort strategyLE l

/-- The first phase of `mergeStrategy` (its lines up to the sort): find the
first existing entry with the same `Type` and deep-overwrite it with the new
strategy, or append the new strategy when no entry of that type exists. -/
def mergeIntoList : List CredentialIssuerStrategy → CredentialIssuerStrategy →
    List CredentialIssuerStrategy
  | [], s => [s]
  | x :: xs, s => if x.type = s.type then s :: xs else x :: mergeIntoList xs s

/-- `mergeStrategy`: replace-or-append the new strategy, stably re-sort, and
mirror the token-credential-request frontend data into the deprecated
`kubeConfigInfo` field.  The Go code dereferences
`strategy.Frontend.TokenCredentialRequestAPIInfo` without a nil check; the
resulting panic is modelled by returning `none`. -/
def mergeStrategy (configToUpdate : CredentialIssuerStatus)
    (strategy : CredentialIssuerStrategy) : Option CredentialIssuerStatus :=
  let strategies := sortStrategies (mergeIntoList configToUpdate.strategies strategy)
  match strategy.frontend with
  | some f =>
    if f.type = TokenCredentialRequestAPIFrontendType then
      match f.tokenCredentialRequestAPIInfo with
      | some info =>
        some { strategies := strategies,
               kubeConfigInfo := some { server := info.server,
                                        certificateAuthorityData := info.certificateAuthorityData } }
      | none => none
    else
      some { strategies := strategies, kubeConfigInfo := configToUpdate.kubeConfigInfo }
  | none =>
    some { strategies := strategies, kubeConfigInfo := configToUpdate.kubeConfigInfo }

/-! ## The caller-side steady-state convergence check
(`ensureKubeCertAgentSteadyState` from the kube-cert-agent integration test) -/

/-- The polling loop of `ensureKubeCertAgentSteadyState`.  Each entry of
`obs` is the outcome of one reconciliation pass (`true` = the agent pods
match the reference state with zero corrective actions).  The counter of
consecutive matching passes is incremented on a match and reset to zero on a
mismatch; the loop stops as soon as the counter reaches
`wantSteadyStateSnapshots = 3`.  The result is the number of passes consumed
when convergence is declared, or `none` if the observation stream is
exhausted first (the 30-second poll timeout). -/
def steadyPoll (steadyStateSnapshots : Nat) : List Bool → Option Nat
  | [] => none
  | b :: rest =>
    let c := if b then steadyStateSnapshots + 1 else 0
    if c = 3 then some 1 else (steadyPoll c rest).map (· + 1)

/-- Declarative reference for the steady-state check: the position just after
the first three consecutive matching passes, if any. -/
def firstTriple : List Bool → Option Nat
  | true :: true :: true :: _ => some 3
  | _ :: rest => (firstTriple rest).map (· + 1)
  | [] => none

/-- A run of observations ends with three consecutive matching passes. -/
def endsTriple (p : List Bool) : Prop := ∃ q, p = q ++ [true, true, true]

/-! ## The Trust Material Provider, modelled from the spec -/

/-- Modelled from the spec: the dynamiccert `Provider` implementation
(package `internal/dynamiccert`) is not among the source files here — only
its test is.  Per the spec, the Provider holds a current
serving-certificate/key pair (or absent), an internal monotonic revision,
and notifies listeners on every successful set; PEM content is compared
byte-identically, so it is carried verbatim. -/
structure Provider where
  current : Option (String × String)
  revision : Nat
  notified : List Nat

/-- Modelled from the spec: `CurrentCertKeyContent()` returns the latest
snapshot. -/
def currentCertKeyContent (p : Provider) : Option (String × String) := p.current

/-- Modelled from the spec: `SetCertKeyContent(certPEM, keyPEM)` validates
that the pair forms a usable certificate before swapping; on success it
replaces the current state, advances the revision and notifies listeners; on
invalid PEM or key/certificate mismatch it fails without mutating state.
Validity (PEM parses and the key matches the certificate) is abstracted as
the Boolean predicate `valid`; the second component of the result is the
returned error, `none` on success. -/
def setCertKeyContent (valid : String → String → Bool) (p : Provider)
    (certPEM keyPEM : String) : Provider × Option String :=
  if valid certPEM keyPEM then
    ({ current := some (certPEM, keyPEM),
       revision := p.revision + 1,
       notified := p.notified ++ [p.revision + 1] }, none)
  else
    (p, some "invalid serving cert keypair")

/-! ## The Rotation Controller, modelled from the spec -/

/-- A certificate as the Rotation Controller sees it: its expiry instant on
a logical clock, and a serial distinguishing fresh mintings. -/
structure CertData where
  notAfter : Nat
  serial : Nat

/-- The state read and written by one reconciliation cycle: the persisted
copy in the Resource Store and the live copy in the Provider. -/
structure RotationState where
  storeCert : Option CertData
  providerCert : Option CertData

/-- The externally visible writes of one reconciliation cycle, in order. -/
inductive RotationEvent where
  | storeWrite (c : CertData)
  | providerSet (c : CertData)

/-- Modelled from the spec: the Rotation Controller's per-item decision —
`Missing → mint`, `Invalid (here: expired) → mint`,
`Valid-Stale (within RenewBefore of expiry) → mint`, `Valid-Fresh → no-op`. -/
def certNeedsMint (now renewBefore : Nat) (c : Option CertData) : Bool :=
  match c with
  | none => true
  | some cert => decide (cert.notAfter ≤ now + renewBefore)

/-- Modelled from the spec: one reconciliation cycle of the Rotation
Controller (whose implementation is not among the source files here — only
its integration test is).  If the persisted material is missing, expired or
stale it mints a replacement valid for `validity` from `now`, writes it to
the Resource Store first and only then mirrors it into the Provider;
otherwise it does nothing.  The event list records the writes in program
order. -/
def reconcileOnce (now validity renewBefore freshSerial : Nat)
    (st : RotationState) : RotationState × List RotationEvent :=
  if certNeedsMint now renewBefore st.storeCert then
    let minted : CertData := { notAfter := now + validity, serial := freshSerial }
    ({ storeCert := some minted, providerCert := some minted },
     [RotationEvent.storeWrite minted, RotationEvent.providerSet minted])
  else
    (st, [])

/-! ## Concrete inputs used by the test-derived claims -/

/-- An empty `CredentialIssuerStatus`, the starting point of the sorting
scenario. -/
def emptyStatus : CredentialIssuerStatus := { strategies := [], kubeConfigInfo := none }

/-- A strategy report carrying only a type, like the inputs of
`TestStrategySorting`. -/
def mkTypeOnly (t : String) : CredentialIssuerStrategy :=
  { type := t, status := "", reason := "", message := "", lastUpdateTime := 0, frontend := none }

/-- The expected final order of `TestStrategySorting`: highest configured
weight first, then lexical. -/
def expectedOrder : List CredentialIssuerStrategy :=
  [mkTypeOnly KubeClusterSigningCertificateStrategyType,
   mkTypeOnly ImpersonationProxyStrategyType,
   mkTypeOnly "Type1", mkTypeOnly "Type2", mkTypeOnly "Type3"]

/-- Folding the merge operation over a list of strategies, starting from a
given status; `none` as soon as any single merge panics. -/
def mergeAll (init : CredentialIssuerStatus) (l : List CredentialIssuerStrategy) :
    Option CredentialIssuerStatus :=
  l.foldl (fun acc s => acc.bind fun st => mergeStrategy st s) (some init)

/-- A strategy of type `Type1` whose frontend is the token-credential-request
kind, as in `TestMergeStrategy`. -/
def tcrStrategy1 : CredentialIssuerStrategy :=
  { type := "Type1", status := "Success", reason := "some reason",
    message := "some message", lastUpdateTime := 1,
    frontend := some { type := TokenCredentialRequestAPIFrontendType,
                       tokenCredentialRequestAPIInfo :=
                         some { server := "https://s", certificateAuthorityData := "c" },
                       impersonationProxyInfo := none } }

/-- A strategy of a different strategy type (`Type2`) that also carries a
token-credential-request frontend, with different mirror data. -/
def tcrStrategy2 : CredentialIssuerStrategy :=
  { type := "Type2", status := "Success", reason := "another reason",
    message := "another message", lastUpdateTime := 2,
    frontend := some { type := TokenCredentialRequestAPIFrontendType,
                       tokenCredentialRequestAPIInfo :=
                         some { server := "https://other", certificateAuthorityData := "d" },
                       impersonationProxyInfo := none } }

/-- A strategy whose frontend is the token-credential-request kind but whose
info pointer is nil, the input on which the Go code panics. -/
def nilInfoStrategy : CredentialIssuerStrategy :=
  { type := "Type3", status := "Success", reason := "r", message := "m",
    lastUpdateTime := 3,
    frontend := some { type := TokenCredentialRequestAPIFrontendType,
                       tokenCredentialRequestAPIInfo := none,
                       impersonationProxyInfo := none } }

/-! ## Order-theoretic facts about the comparator -/

theorem stringDataInj : ∀ s t : String, s.data = t.data → s = t
  | ⟨_⟩, ⟨_⟩, h => by cases h; rfl

theorem lexTrichotomy (a b : List Char) :
    List.Lex (· < ·) a b ∨ a = b ∨ List.Lex (· < ·) b a :=
  (inferInstanceAs (IsTrichotomous (List Char) (List.Lex (· < ·)))).trichotomous a b

theorem lexAsymmetry {a b : List Char} (h : List.Lex (· < ·) a b) : ¬ List.Lex (· < ·) b a :=
  (inferInstanceAs (IsAsymm (List Char) (List.Lex (· < ·)))).asymm a b h

theorem lexTransitivity {a b c : List Char} (h1 : List.Lex (· < ·) a b)
    (h2 : List.Lex (· < ·) b c) : List.Lex (· < ·) a c :=
  (inferInstanceAs (IsTrans (List Char) (List.Lex (· < ·)))).trans a b c h1 h2

/-- `lexLess` is the lexicographic strict order on character lists. -/
theorem lexLess_iff_lex : ∀ a b : List Char, lexLess a b = true ↔ List.Lex (· < ·) a b
  | [], [] => by
    constructor
    · intro h; cases h
    · intro h; cases h
  | [], _ :: _ => by
    constructor
    · intro _; exact List.Lex.nil
    · intro _; rfl
  | _ :: _, [] => by
    constructor
    · intro h; cases h
    · intro h; cases h
  | c :: cs, d :: ds => by
    rcases lt_trichotomy c d with h | h | h
    · simp only [lexLess, if_pos h, true_iff]
      exact List.Lex.rel h
    · subst h
      simp only [lexLess, if_neg (lt_irrefl c), lexLess_iff_lex cs ds]
      constructor
      · exact List.Lex.cons
      · intro hl
        cases hl with
        | cons h => exact h
        | rel h => exact absurd h (lt_irrefl c)
    · simp only [lexLess, if_neg (not_lt_of_lt h), if_pos h]
      constructor
      · intro hf; cases hf
      · intro hl
        cases hl with
        | cons h2 => exact absurd h (lt_irrefl _)
        | rel h2 => exact absurd h2 (not_lt_of_lt h)

theorem lexLess_self (l : List Char) : lexLess l l = false := by
  rw [← Bool.not_eq_true, lexLess_iff_lex]
  intro h
  exact lexAsymmetry h h

theorem lexLess_asymm {a b : List Char} (h : lexLess a b = true) : lexLess b a = false := by
  rw [← Bool.not_eq_true, lexLess_iff_lex]
  rw [lexLess_iff_lex] at h
  exact lexAsymmetry h

theorem lexLess_eq_of_both_false {a b : List Char} (hab : lexLess a b = false)
    (hba : lexLess b a = false) : a = b := by
  rcases lexTrichotomy a b with h | h | h
  · rw [← lexLess_iff_lex] at h; rw [h] at hab; cases hab
  · exact h
  · rw [← lexLess_iff_lex] at h; rw [h] at hba; cases hba

theorem lexLess_false_trans {a b c : List Char} (hba : lexLess b a = false)
    (hcb : lexLess c b = false) : lexLess c a = false := by
  rcases lexTrichotomy b a with h | h | h
  · rw [← lexLess_iff_lex] at h; rw [h] at hba; cases hba
  · subst h; exact hcb
  · rcases lexTrichotomy c b with h2 | h2 | h2
    · rw [← lexLess_iff_lex] at h2; rw [h2] at hcb; cases hcb
    · subst h2; rw [← Bool.not_eq_true, lexLess_iff_lex]
      exact lexAsymmetry h
    · rw [← Bool.not_eq_true, lexLess_iff_lex]
      intro hca
      exact lexAsymmetry h2 (lexTransitivity hca h)

theorem goStringLess_self (s : String) : goStringLess s s = false :=
  lexLess_self s.data

theorem goStringLess_asymm {a b : String} (h : goStringLess a b = true) :
    goStringLess b a = false :=
  lexLess_asymm h

theorem goStringLess_eq_of_both_false {a b : String} (hab : goStringLess a b = false)
    (hba : goStringLess b a = false) : a = b :=
  stringDataInj a b (lexLess_eq_of_both_false hab hba)

theorem goStringLess_false_trans {a b c : String} (hba : goStringLess b a = false)
    (hcb : goStringLess c b = false) : goStringLess c a = false :=
  lexLess_false_trans hba hcb

/-- Two strategies of the same type are never strictly ordered: the comparator
ties on equal weights and equal type names. -/
theorem sortableStrategiesLess_same_type {a b : CredentialIssuerStrategy}
    (h : a.type = b.type) : sortableStrategiesLess a b = false := by
  simp only [sortableStrategiesLess, h, ne_eq, not_true_eq_false, if_false, ite_false,
    goStringLess_self]

/-- The comparator never strictly orders `b` below `a` when `b`'s weight is
strictly smaller. -/
theorem weights_le_of_not_less {a b : CredentialIssuerStrategy}
    (h : sortableStrategiesLess b a = false) : weights b.type ≤ weights a.type := by
  by_cases hw : weights b.type = weights a.type
  · exact le_of_eq hw
  · simp only [sortableStrategiesLess, ne_eq, hw, not_false_eq_true, if_true,
      decide_eq_false_iff_not, not_lt] at h
    exact h

/-- On equal weights, not-strictly-less means the type names are not strictly
ordered either. -/
theorem goStringLess_of_not_less {a b : CredentialIssuerStrategy}
    (h : sortableStrategiesLess b a = false) (hw : weights b.type = weights a.type) :
    goStringLess b.type a.type = false := by
  simpa only [sortableStrategiesLess, ne_eq, hw, not_true_eq_false, if_false, ite_false] using h

instance : IsTotal CredentialIssuerStrategy strategyLE := by
  constructor
  intro a b
  unfold strategyLE
  by_cases hw : weights a.type = weights b.type
  · cases hgs : goStringLess b.type a.type with
    | false =>
      left
      simp only [sortableStrategiesLess, ne_eq, hw.symm, not_true_eq_false, if_false,
        ite_false, hgs]
    | true =>
      right
      simp only [sortableStrategiesLess, ne_eq, hw, not_true_eq_false, if_false, ite_false]
      exact goStringLess_asymm hgs
  · by_cases h2 : weights b.type > weights a.type
    · right
      simp only [sortableStrategiesLess, ne_eq, hw, not_false_eq_true, if_true,
        decide_eq_false_iff_not, not_lt]
      exact le_of_lt h2
    · left
      have hw2 : ¬ (weights b.type = weights a.type) := fun h => hw h.symm
      simp only [sortableStrategiesLess, ne_eq, hw2, not_false_eq_true, if_true,
        decide_eq_false_iff_not, not_lt]
      exact le_of_not_lt h2

instance : IsTrans CredentialIssuerStrategy strategyLE := by
  constructor
  intro a b c hab hbc
  unfold strategyLE at *
  have h1 : weights b.type ≤ weights a.type := weights_le_of_not_less hab
  have h2 : weights c.type ≤ weights b.type := weights_le_of_not_less hbc
  by_cases hw : weights c.type = weights a.type
  · have hba : weights b.type = weights a.type := by omega
    have hcb : weights c.type = weights b.type := by omega
    have g1 : goStringLess b.type a.type = false := goStringLess_of_not_less hab hba
    have g2 : goStringLess c.type b.type = false := goStringLess_of_not_less hbc hcb
    simp only [sortableStrategiesLess, ne_eq, hw, not_true_eq_false, if_false, ite_false]
    exact goStringLess_false_trans g1 g2
  · simp only [sortableStrategiesLess, ne_eq, hw, not_false_eq_true, if_true,
      decide_eq_false_iff_not, not_lt]
    omega

/-- Weak antisymmetry of the induced preorder: mutually unordered strategies
have equal type names. -/
theorem strategyLE_antisymm_type {a b : CredentialIssuerStrategy}
    (hab : strategyLE a b) (hba : strategyLE b a) : a.type = b.type := by
  unfold strategyLE at hab hba
  have h1 : weights b.type ≤ weights a.type := weights_le_of_not_less hab
  have h2 : weights a.type ≤ weights b.type := weights_le_of_not_less hba
  have hw : weights b.type = weights a.type := by omega
  have g1 : goStringLess b.type a.type = false := goStringLess_of_not_less hab hw
  have g2 : goStringLess a.type b.type = false := goStringLess_of_not_less hba hw.symm
  exact goStringLess_eq_of_both_false g2 g1

/-! ## Facts about `mergeIntoList` (the replace-or-append phase) -/

theorem mem_mergeIntoList {L : List CredentialIssuerStrategy}
    {s x : CredentialIssuerStrategy} (h : x ∈ mergeIntoList L s) : x ∈ L ∨ x = s := by
  induction L with
  | nil =>
    simp only [mergeIntoList, List.mem_singleton] at h
    exact Or.inr h
  | cons y ys ih =>
    by_cases hy : y.type = s.type
    · simp only [mergeIntoList, if_pos hy, List.mem_cons] at h
      rcases h with h | h
      · exact Or.inr h
      · exact Or.inl (List.mem_cons_of_mem y h)
    · simp only [mergeIntoList, if_neg hy, List.mem_cons] at h
      rcases h with h | h
      · exact Or.inl (h ▸ List.mem_cons_self y ys)
      · rcases ih h with h2 | h2
        · exact Or.inl (List.mem_cons_of_mem y h2)
        · exact Or.inr h2

/-- After a merge, the first entry of the merged strategy's type is the merged
strategy itself. -/
theorem mergeIntoList_find? (L : List CredentialIssuerStrategy)
    (s : CredentialIssuerStrategy) :
    (mergeIntoList L s).find? (fun x => decide (x.type = s.type)) = some s := by
  induction L with
  | nil =>
    simp [mergeIntoList, List.find?_cons]
  | cons y ys ih =>
    by_cases hy : y.type = s.type
    · simp [mergeIntoList, if_pos hy, List.find?_cons]
    · simp only [mergeIntoList, if_neg hy]
      rw [List.find?_cons_of_neg _ (by simp [hy])]
      exact ih

/-- If no existing entry has the merged strategy's type, merge appends. -/
theorem mergeIntoList_append {L : List CredentialIssuerStrategy}
    {s : CredentialIssuerStrategy} (h : ∀ x ∈ L, x.type ≠ s.type) :
    mergeIntoList L s = L ++ [s] := by
  induction L with
  | nil => rfl
  | cons y ys ih =>
    have hy : y.type ≠ s.type := h y (List.mem_cons_self y ys)
    simp only [mergeIntoList, if_neg hy, List.cons_append, List.cons.injEq, true_and]
    exact ih fun x hx => h x (List.mem_cons_of_mem y hx)

/-- If an entry of the merged strategy's type exists, the first such entry is
overwritten in place and everything else is kept. -/
theorem mergeIntoList_replace {L L₁ L₂ : List CredentialIssuerStrategy}
    {x s : CredentialIssuerStrategy} (hsplit : L = L₁ ++ x :: L₂)
    (hx : x.type = s.type) (hfirst : ∀ y ∈ L₁, y.type ≠ s.type) :
    mergeIntoList L s = L₁ ++ s :: L₂ := by
  subst hsplit
  induction L₁ with
  | nil => simp [mergeIntoList, hx]
  | cons y ys ih =>
    have hy : y.type ≠ s.type := hfirst y (List.mem_cons_self y ys)
    simp only [List.cons_append, mergeIntoList, if_neg hy, List.cons.injEq, true_and]
    exact ih fun z hz => hfirst z (List.mem_cons_of_mem y hz)

/-- Merging a strategy that is already the first entry of its own type is a
no-op on the list. -/
theorem mergeIntoList_of_find?_self {L : List CredentialIssuerStrategy}
    {s : CredentialIssuerStrategy}
    (h : L.find? (fun x => decide (x.type = s.type)) = some s) :
    mergeIntoList L s = L := by
  induction L with
  | nil => cases h
  | cons y ys ih =>
    by_cases hy : y.type = s.type
    · rw [List.find?_cons_of_pos _ (by simp [hy])] at h
      cases h
      simp [mergeIntoList, hy]
    · rw [List.find?_cons_of_neg _ (by simp [hy])] at h
      simp only [mergeIntoList, if_neg hy, List.cons.injEq, true_and]
      exact ih h

theorem mergeIntoList_pairwise {L : List CredentialIssuerStrategy}
    {s : CredentialIssuerStrategy}
    (h : L.Pairwise (fun a b => a.type ≠ b.type)) :
    (mergeIntoList L s).Pairwise (fun a b => a.type ≠ b.type) := by
  induction L with
  | nil => simp [mergeIntoList]
  | cons y ys ih =>
    rcases List.pairwise_cons.mp h with ⟨hy, hys⟩
    by_cases ht : y.type = s.type
    · simp only [mergeIntoList, if_pos ht, List.pairwise_cons]
      exact ⟨fun b hb => ht ▸ hy b hb, hys⟩
    · simp only [mergeIntoList, if_neg ht, List.pairwise_cons]
      refine ⟨fun b hb => ?_, ih hys⟩
      rcases mem_mergeIntoList hb with h2 | h2
      · exact hy b h2
      · exact h2 ▸ ht

theorem mergeIntoList_countP {L : List CredentialIssuerStrategy}
    {s : CredentialIssuerStrategy}
    (h : L.Pairwise (fun a b => a.type ≠ b.type)) :
    (mergeIntoList L s).countP (fun x => decide (x.type = s.type)) = 1 := by
  induction L with
  | nil => simp [mergeIntoList]
  | cons y ys ih =>
    rcases List.pairwise_cons.mp h with ⟨hy, hys⟩
    by_cases ht : y.type = s.type
    · simp only [mergeIntoList, if_pos ht]
      rw [List.countP_cons_of_pos _ _ (by simp)]
      have hz : ys.countP (fun x => decide (x.type = s.type)) = 0 :=
        List.countP_eq_zero.mpr fun a ha => by
          simp only [decide_eq_true_eq]
          intro hc
          exact hy a ha (ht.trans hc.symm)
      omega
    · simp only [mergeIntoList, if_neg ht]
      rw [List.countP_cons_of_neg _ _ (by simp [ht])]
      exact ih hys

/-! ## Facts about the stable sort -/

theorem sortStrategies_perm (l : List CredentialIssuerStrategy) :
    List.Perm (sortStrategies l) l :=
  List.perm_insertionSort strategyLE l

theorem sortStrategies_sorted (l : List CredentialIssuerStrategy) :
    (sortStrategies l).Sorted strategyLE :=
  List.sorted_insertionSort strategyLE l

theorem sortStrategies_of_sorted {l : List CredentialIssuerStrategy}
    (h : l.Sorted strategyLE) : sortStrategies l = l :=
  List.Sorted.insertionSort_eq h

/-- `find?` returns the head of the filtered list. -/
theorem find?_eq_filter_head? {α : Type} (p : α → Bool) (l : List α) :
    l.find? p = (l.filter p).head? := by
  induction l with
  | nil => rfl
  | cons x xs ih =>
    cases h : p x
    · rw [List.find?_cons_of_neg _ (by simp [h]), List.filter_cons_of_neg (by simp [h]), ih]
    · rw [List.find?_cons_of_pos _ h, List.filter_cons_of_pos h, List.head?_cons]

/-- Inserting an element that the predicate rejects does not change the
filtered list. -/
theorem filter_orderedInsert_of_neg {α : Type} (r : α → α → Prop) [DecidableRel r]
    (p : α → Bool) (a : α) (l : List α) (ha : p a = false) :
    (List.orderedInsert r a l).filter p = l.filter p := by
  induction l with
  | nil => simp [List.orderedInsert, List.filter, ha]
  | cons b bs ih =>
    by_cases hr : r a b
    · rw [List.orderedInsert, if_pos hr, List.filter_cons_of_neg (by simp [ha])]
    · rw [List.orderedInsert, if_neg hr]
      cases hb : p b
      · rw [List.filter_cons_of_neg (by simp [hb]), List.filter_cons_of_neg (by simp [hb]), ih]
      · rw [List.filter_cons_of_pos hb, List.filter_cons_of_pos hb, ih]

/-- Inserting an element that the predicate accepts, when it weakly precedes
every accepted element, puts it at the head of the filtered list. -/
theorem filter_orderedInsert_of_pos {α : Type} (r : α → α → Prop) [DecidableRel r]
    (p : α → Bool) (a : α) (l : List α) (ha : p a = true)
    (hall : ∀ b, p b = true → r a b) :
    (List.orderedInsert r a l).filter p = a :: l.filter p := by
  induction l with
  | nil => simp [List.orderedInsert, List.filter, ha]
  | cons b bs ih =>
    by_cases hr : r a b
    · rw [List.orderedInsert, if_pos hr, List.filter_cons_of_pos ha]
    · have hb : p b = false := by
        cases hb : p b
        · rfl
        · exact absurd (hall b hb) hr
      rw [List.orderedInsert, if_neg hr, List.filter_cons_of_neg (by simp [hb]),
        List.filter_cons_of_neg (by simp [hb])]
      exact ih

/-- Stability of the sort, specialised to a type-equality predicate: sorting
never reorders the entries of one strategy type. -/
theorem filter_sortStrategies_type (T : String) (l : List CredentialIssuerStrategy) :
    (sortStrategies l).filter (fun x => decide (x.type = T)) =
      l.filter (fun x => decide (x.type = T)) := by
  induction l with
  | nil => rfl
  | cons x xs ih =>
    show (List.orderedInsert strategyLE x (sortStrategies xs)).filter _ = _
    cases hx : decide (x.type = T) with
    | false =>
      rw [filter_orderedInsert_of_neg strategyLE _ x _ hx, ih]
      simp [List.filter_cons, hx]
    | true =>
      have hall : ∀ b : CredentialIssuerStrategy,
          (fun x => decide (x.type = T)) b = true → strategyLE x b := by
        intro b hb
        have hxT : x.type = T := of_decide_eq_true hx
        have hbT : b.type = T := of_decide_eq_true hb
        exact (sortableStrategiesLess_same_type (hbT.trans hxT.symm) : strategyLE x b)
      rw [filter_orderedInsert_of_pos strategyLE _ x _ hx hall, ih]
      simp [List.filter_cons, hx]

/-- Re-merging the same strategy into an already merged-and-sorted list is a
no-op: by stability, the first entry of the strategy's type is the strategy
itself. -/
theorem mergeIntoList_sortStrategies_self (M : List CredentialIssuerStrategy)
    (s : CredentialIssuerStrategy) :
    mergeIntoList (sortStrategies (mergeIntoList M s)) s =
      sortStrategies (mergeIntoList M s) := by
  apply mergeIntoList_of_find?_self
  rw [find?_eq_filter_head?, filter_sortStrategies_type s.type, ← find?_eq_filter_head?]
  exact mergeIntoList_find? M s

/-- C2: The strategy-merge operation is idempotent: whenever merging `s` into
`S` returns a status `S1` (rather than panicking), merging `s` again into
`S1` returns `S1` unchanged. -/
theorem mergeStrategy_idempotent (S : CredentialIssuerStatus)
    (s : CredentialIssuerStrategy) (S1 : CredentialIssuerStatus)
    (h : mergeStrategy S s = some S1) : mergeStrategy S1 s = some S1 := by
  cases hf : s.frontend with
  | none =>
    simp only [mergeStrategy, hf] at h ⊢
    cases h
    simp only [mergeIntoList_sortStrategies_self,
      sortStrategies_of_sorted (sortStrategies_sorted _)]
  | some f =>
    by_cases hT : f.type = TokenCredentialRequestAPIFrontendType
    · cases hi : f.tokenCredentialRequestAPIInfo with
      | none =>
        simp only [mergeStrategy, hf, if_pos hT, hi] at h
        cases h
      | some info =>
        simp only [mergeStrategy, hf, if_pos hT, hi] at h ⊢
        cases h
        simp only [mergeIntoList_sortStrategies_self,
          sortStrategies_of_sorted (sortStrategies_sorted _)]
    · simp only [mergeStrategy, hf, if_neg hT] at h ⊢
      cases h
      simp only [mergeIntoList_sortStrategies_self,
        sortStrategies_of_sorted (sortStrategies_sorted _)]

/-- Whatever the frontend case, the strategies list of a successful merge is
the stably re-sorted replace-or-append list. -/
theorem mergeStrategy_strategies (S : CredentialIssuerStatus)
    (s : CredentialIssuerStrategy) (S1 : CredentialIssuerStatus)
    (h : mergeStrategy S s = some S1) :
    S1.strategies = sortStrategies (mergeIntoList S.strategies s) := by
  cases hf : s.frontend with
  | none =>
    simp only [mergeStrategy, hf] at h
    cases h
    rfl
  | some f =>
    by_cases hT : f.type = TokenCredentialRequestAPIFrontendType
    · cases hi : f.tokenCredentialRequestAPIInfo with
      | none =>
        simp only [mergeStrategy, hf, if_pos hT, hi] at h
        cases h
      | some info =>
        simp only [mergeStrategy, hf, if_pos hT, hi] at h
        cases h
        rfl
    · simp only [mergeStrategy, hf, if_neg hT] at h
      cases h
      rfl

/-- C1 (amended): a successful merge of a strategy whose `frontend.type` is
the token-credential-request kind overwrites the deprecated `kubeConfigInfo`
mirror with that frontend's server URL and CA data, and a merge of a strategy
whose frontend is absent or of any other frontend kind leaves the mirror
unchanged.  (Keyed on the frontend kind, not on the strategy type.) -/
theorem mergeStrategy_mirror (S : CredentialIssuerStatus)
    (s : CredentialIssuerStrategy) (S1 : CredentialIssuerStatus)
    (h : mergeStrategy S s = some S1) :
    (∀ f, s.frontend = some f → f.type = TokenCredentialRequestAPIFrontendType →
      ∃ info, f.tokenCredentialRequestAPIInfo = some info ∧
        S1.kubeConfigInfo = some { server := info.server,
                                   certificateAuthorityData := info.certificateAuthorityData }) ∧
    ((∀ f, s.frontend = some f → f.type ≠ TokenCredentialRequestAPIFrontendType) →
      S1.kubeConfigInfo = S.kubeConfigInfo) := by
  cases hf : s.frontend with
  | none =>
    simp only [mergeStrategy, hf] at h
    cases h
    constructor
    · intro f2 hf2 _
      cases hf2
    · intro _
      rfl
  | some f =>
    by_cases hT : f.type = TokenCredentialRequestAPIFrontendType
    · cases hi : f.tokenCredentialRequestAPIInfo with
      | none =>
        simp only [mergeStrategy, hf, if_pos hT, hi] at h
        cases h
      | some info =>
        simp only [mergeStrategy, hf, if_pos hT, hi] at h
        cases h
        constructor
        · intro f2 hf2 _
          cases hf2
          exact ⟨info, hi, rfl⟩
        · intro hno
          exact absurd hT (hno f rfl)
    · simp only [mergeStrategy, hf, if_neg hT] at h
      cases h
      constructor
      · intro f2 hf2 hT2
        cases hf2
        exact absurd hT2 hT
      · intro _
        rfl

/-- C1 counterexample: `tcrStrategy2` has a different *strategy* type from
`tcrStrategy1`, yet merging it afterward changes the deprecated mirror,
because the mirror is keyed on the *frontend* kind. -/
theorem mergeStrategy_mirror_changed_by_other_type :
    tcrStrategy2.type ≠ tcrStrategy1.type ∧
    (mergeAll emptyStatus [tcrStrategy1]).map CredentialIssuerStatus.kubeConfigInfo =
      some (some { server := "https://s", certificateAuthorityData := "c" }) ∧
    (mergeAll emptyStatus [tcrStrategy1, tcrStrategy2]).map
        CredentialIssuerStatus.kubeConfigInfo =
      some (some { server := "https://other", certificateAuthorityData := "d" }) ∧
    (mergeAll emptyStatus [tcrStrategy1, tcrStrategy2]).map
        CredentialIssuerStatus.kubeConfigInfo ≠
      (mergeAll emptyStatus [tcrStrategy1]).map CredentialIssuerStatus.kubeConfigInfo := by
  refine ⟨by decide, by decide, by decide, by decide⟩

/-- C1 witness: the amended mirror rule, applied to a concrete
token-credential-request merge and a concrete frontend-free merge. -/
theorem mergeStrategy_mirror_witness :
    (∀ f, tcrStrategy1.frontend = some f →
      f.type = TokenCredentialRequestAPIFrontendType →
      ∃ info, f.tokenCredentialRequestAPIInfo = some info ∧
        (CredentialIssuerStatus.mk (sortStrategies (mergeIntoList [] tcrStrategy1))
            (some { server := "https://s", certificateAuthorityData := "c" })).kubeConfigInfo =
          some { server := info.server,
                 certificateAuthorityData := info.certificateAuthorityData }) ∧
    ((∀ f, tcrStrategy1.frontend = some f →
        f.type ≠ TokenCredentialRequestAPIFrontendType) →
      (CredentialIssuerStatus.mk (sortStrategies (mergeIntoList [] tcrStrategy1))
          (some { server := "https://s", certificateAuthorityData := "c" })).kubeConfigInfo =
        emptyStatus.kubeConfigInfo) :=
  mergeStrategy_mirror emptyStatus tcrStrategy1 _ (by decide)

/-- C2 witness: idempotence applied to a concrete merge of `Type1` into the
empty status. -/
theorem mergeStrategy_idempotent_witness :
    mergeStrategy { strategies := [mkTypeOnly "Type1"], kubeConfigInfo := none }
        (mkTypeOnly "Type1") =
      some { strategies := [mkTypeOnly "Type1"], kubeConfigInfo := none } :=
  mergeStrategy_idempotent emptyStatus (mkTypeOnly "Type1") _ (by decide)

/-- C4: the first phase of the merge operation replaces the fields of the
first existing entry whose type equals the new strategy's type when such an
entry exists, and appends the new strategy when no entry of that type exists.
(Deep copy means no aliasing survives; in a pure embedding the overwritten
entry simply becomes the new value.  `mergeStrategy` then stably re-sorts
this list.) -/
theorem mergeIntoList_replace_or_append (L : List CredentialIssuerStrategy)
    (s : CredentialIssuerStrategy) :
    ((∀ x ∈ L, x.type ≠ s.type) → mergeIntoList L s = L ++ [s]) ∧
    (∀ L₁ x L₂, L = L₁ ++ x :: L₂ → x.type = s.type →
      (∀ y ∈ L₁, y.type ≠ s.type) → mergeIntoList L s = L₁ ++ s :: L₂) :=
  ⟨mergeIntoList_append, fun _ _ _ h hx hfst => mergeIntoList_replace h hx hfst⟩

/-- C4 witness: a concrete append (no entry of type `Type2`) and a concrete
in-place replacement (first entry of type `Type1` overwritten). -/
theorem mergeIntoList_replace_or_append_witness :
    mergeIntoList [mkTypeOnly "Type1"] (mkTypeOnly "Type2") =
      [mkTypeOnly "Type1"] ++ [mkTypeOnly "Type2"] ∧
    mergeIntoList [mkTypeOnly "Type1", mkTypeOnly "Type3"] tcrStrategy1 =
      [] ++ tcrStrategy1 :: [mkTypeOnly "Type3"] :=
  ⟨(mergeIntoList_replace_or_append [mkTypeOnly "Type1"] (mkTypeOnly "Type2")).1 (by decide),
   (mergeIntoList_replace_or_append [mkTypeOnly "Type1", mkTypeOnly "Type3"] tcrStrategy1).2
     [] (mkTypeOnly "Type1") [mkTypeOnly "Type3"] rfl (by decide) (by decide)⟩

/-- C5: starting from a status whose strategies are deduplicated by type, a
successful merge keeps them deduplicated and leaves exactly one entry of the
merged strategy's type. -/
theorem mergeStrategy_dedup (S : CredentialIssuerStatus)
    (s : CredentialIssuerStrategy) (S1 : CredentialIssuerStatus)
    (h : mergeStrategy S s = some S1)
    (hd : S.strategies.Pairwise (fun a b => a.type ≠ b.type)) :
    S1.strategies.Pairwise (fun a b => a.type ≠ b.type) ∧
    S1.strategies.countP (fun x => decide (x.type = s.type)) = 1 := by
  rw [mergeStrategy_strategies S s S1 h]
  have hperm := sortStrategies_perm (mergeIntoList S.strategies s)
  constructor
  · exact (hperm.pairwise_iff fun hxy hyx => hxy hyx.symm).mpr (mergeIntoList_pairwise hd)
  · rw [hperm.countP_eq]
    exact mergeIntoList_countP hd

/-- C5 witness: merging `Type2` into a singleton `Type1` status keeps the
types deduplicated and yields exactly one `Type2` entry. -/
theorem mergeStrategy_dedup_witness :
    (CredentialIssuerStatus.mk
        (sortStrategies (mergeIntoList [mkTypeOnly "Type1"] (mkTypeOnly "Type2"))) none
      ).strategies.Pairwise (fun a b => a.type ≠ b.type) ∧
    (CredentialIssuerStatus.mk
        (sortStrategies (mergeIntoList [mkTypeOnly "Type1"] (mkTypeOnly "Type2"))) none
      ).strategies.countP (fun x => decide (x.type = (mkTypeOnly "Type2").type)) = 1 :=
  mergeStrategy_dedup { strategies := [mkTypeOnly "Type1"], kubeConfigInfo := none }
    (mkTypeOnly "Type2") _ (by decide) (by decide)

/-- C10: the merge operation has the unstated precondition that a strategy
with the token-credential-request frontend type carries a non-nil info
pointer — on a strategy with that frontend type and a nil info pointer, the
Go code dereferences the nil pointer and panics (modelled here by `none`)
instead of returning a merged status, for every starting status. -/
theorem mergeStrategy_nil_info_panics (S : CredentialIssuerStatus)
    (s : CredentialIssuerStrategy) (f : CredentialIssuerFrontend)
    (hf : s.frontend = some f) (hT : f.type = TokenCredentialRequestAPIFrontendType)
    (hi : f.tokenCredentialRequestAPIInfo = none) :
    mergeStrategy S s = none := by
  simp [mergeStrategy, hf, hT, hi]

/-- C10 witness: the concrete nil-info strategy makes the merge panic on the
empty status. -/
theorem mergeStrategy_nil_info_panics_witness :
    mergeStrategy emptyStatus nilInfoStrategy = none :=
  mergeStrategy_nil_info_panics emptyStatus nilInfoStrategy _ rfl rfl rfl

/-- Sorted permutations with pairwise-distinct types are unique: the
comparator is antisymmetric up to type equality, so distinct types make the
sorted order a total order. -/
theorem sorted_perm_distinct_eq : ∀ l m : List CredentialIssuerStrategy,
    List.Perm l m → l.Sorted strategyLE → m.Sorted strategyLE →
    l.Pairwise (fun a b => a.type ≠ b.type) → l = m
  | [], m, hp, _, _, _ => hp.nil_eq
  | a :: l', m, hp, hsl, hsm, hd => by
    cases m with
    | nil => exact absurd hp.symm.nil_eq (by simp)
    | cons b m' =>
      by_cases hab : a = b
      · subst hab
        rw [sorted_perm_distinct_eq l' m' hp.cons_inv hsl.of_cons hsm.of_cons
          (List.Pairwise.of_cons hd)]
      · exfalso
        have hbl : b ∈ l' := by
          have hbm : b ∈ a :: l' := hp.mem_iff.mpr (List.mem_cons_self b m')
          rcases List.mem_cons.mp hbm with h | h
          · exact absurd h.symm hab
          · exact h
        have ham' : a ∈ m' := by
          have ham : a ∈ b :: m' := hp.mem_iff.mp (List.mem_cons_self a l')
          rcases List.mem_cons.mp ham with h | h
          · exact absurd h hab
          · exact h
        have h1 : strategyLE a b := List.rel_of_sorted_cons hsl b hbl
        have h2 : strategyLE b a := List.rel_of_sorted_cons hsm a ham'
        exact (List.pairwise_cons.mp hd).1 b hbl (strategyLE_antisymm_type h1 h2)

theorem mergeAll_nil (S : CredentialIssuerStatus) : mergeAll S [] = some S := rfl

theorem mergeAll_cons (S S1 : CredentialIssuerStatus) (s : CredentialIssuerStrategy)
    (l : List CredentialIssuerStrategy) (h : mergeStrategy S s = some S1) :
    mergeAll S (s :: l) = mergeAll S1 l := by
  have hb : (Option.some S).bind (fun st => mergeStrategy st s) = some S1 := h
  simp only [mergeAll, List.foldl_cons]
  rw [hb]

/-- Folding the merge over frontend-free strategies whose types are distinct
(also from the existing entries) never panics, preserves the mirror, makes
the result a permutation of old-entries-plus-new-entries, and leaves it
sorted. -/
theorem mergeAll_distinct : ∀ (l : List CredentialIssuerStrategy)
    (S : CredentialIssuerStatus),
    (∀ s ∈ l, s.frontend = none) →
    (l ++ S.strategies).Pairwise (fun a b => a.type ≠ b.type) →
    ∃ T : CredentialIssuerStatus, mergeAll S l = some T ∧
      T.kubeConfigInfo = S.kubeConfigInfo ∧
      List.Perm T.strategies (S.strategies ++ l) ∧
      (l ≠ [] → T.strategies.Sorted strategyLE) ∧
      (l = [] → T = S)
  | [], S, _, _ => ⟨S, rfl, rfl, by simp, fun h => absurd rfl h, fun _ => rfl⟩
  | s :: l', S, hf, hd => by
    have hfs : s.frontend = none := hf s (List.mem_cons_self s l')
    have hd0 : (s :: (l' ++ S.strategies)).Pairwise (fun a b => a.type ≠ b.type) := by
      rw [← List.cons_append]
      exact hd
    have hdc := List.pairwise_cons.mp hd0
    have hnone : ∀ x ∈ S.strategies, x.type ≠ s.type :=
      fun x hx => (hdc.1 x (List.mem_append_right l' hx)).symm
    have hmerge : mergeStrategy S s =
        some ⟨sortStrategies (S.strategies ++ [s]), S.kubeConfigInfo⟩ := by
      simp only [mergeStrategy, hfs]
      rw [mergeIntoList_append hnone]
    rw [mergeAll_cons S _ s l' hmerge]
    have hp1 : List.Perm (l' ++ sortStrategies (S.strategies ++ [s]))
        (l' ++ (S.strategies ++ [s])) :=
      List.Perm.append_left l' (sortStrategies_perm _)
    have hp2 : List.Perm (l' ++ (S.strategies ++ [s])) (s :: (l' ++ S.strategies)) := by
      rw [← List.append_assoc]
      exact List.perm_append_singleton s (l' ++ S.strategies)
    have hd1 : (l' ++ sortStrategies (S.strategies ++ [s])).Pairwise
        (fun a b => a.type ≠ b.type) :=
      ((hp1.trans hp2).pairwise_iff fun hxy hyx => hxy hyx.symm).mpr hd0
    obtain ⟨T, hT, hk, hperm, hsorted, hbase⟩ :=
      mergeAll_distinct l' ⟨sortStrategies (S.strategies ++ [s]), S.kubeConfigInfo⟩
        (fun x hx => hf x (List.mem_cons_of_mem s hx)) hd1
    refine ⟨T, hT, hk, ?_, ?_, by simp⟩
    · have hps : List.Perm (sortStrategies (S.strategies ++ [s]) ++ l')
          ((S.strategies ++ [s]) ++ l') :=
        List.Perm.append_right l' (sortStrategies_perm _)
      have heq : (S.strategies ++ [s]) ++ l' = S.strategies ++ (s :: l') := by
        rw [List.append_assoc]
        rfl
      exact (hperm.trans hps).trans (heq ▸ List.Perm.refl _)
    · intro _
      cases l' with
      | nil =>
        rw [hbase rfl]
        exact sortStrategies_sorted (S.strategies ++ [s])
      | cons y ys => exact hsorted (by simp)

/-- C3: merging the five strategy types `KubeClusterSigningCertificate`,
`ImpersonationProxy`, `Type1`, `Type2`, `Type3` one at a time into an
initially empty status, in any order, always yields exactly the sequence
`[KubeClusterSigningCertificate, ImpersonationProxy, Type1, Type2, Type3]`:
configured weight descending (unknown types defaulting to the lowest
weight), then type name lexically ascending, stably sorted. -/
theorem strategySorting (l : List CredentialIssuerStrategy)
    (hperm : List.Perm l expectedOrder) :
    mergeAll emptyStatus l =
      some { strategies := expectedOrder, kubeConfigInfo := none } := by
  have hfE : ∀ s ∈ expectedOrder, s.frontend = none := by decide
  have hdE : expectedOrder.Pairwise (fun a b => a.type ≠ b.type) := by decide
  have hsE : expectedOrder.Sorted strategyLE := by decide
  have hf : ∀ s ∈ l, s.frontend = none := fun s hs => hfE s (hperm.mem_iff.mp hs)
  have hd : (l ++ emptyStatus.strategies).Pairwise (fun a b => a.type ≠ b.type) := by
    have : (l ++ emptyStatus.strategies) = l := by simp [emptyStatus]
    rw [this]
    exact (hperm.pairwise_iff fun hxy hyx => hxy hyx.symm).mpr hdE
  obtain ⟨T, hT, hk, hp, hs, _⟩ := mergeAll_distinct l emptyStatus hf hd
  have hlne : l ≠ [] := by
    intro hnil
    rw [hnil] at hperm
    have := hperm.nil_eq
    simp [expectedOrder] at this
  have hsorted : T.strategies.Sorted strategyLE := hs hlne
  have hpE : List.Perm T.strategies expectedOrder := by
    have h0 : (emptyStatus.strategies ++ l) = l := by simp [emptyStatus]
    exact (h0 ▸ hp).trans hperm
  have hdT : T.strategies.Pairwise (fun a b => a.type ≠ b.type) :=
    (hpE.pairwise_iff fun hxy hyx => hxy hyx.symm).mpr hdE
  have hstr : T.strategies = expectedOrder :=
    sorted_perm_distinct_eq T.strategies expectedOrder hpE hsorted hsE hdT
  rw [hT]
  have hkE : T.kubeConfigInfo = none := hk
  cases T
  simp_all

/-- C3 witness: the fully reversed merge order of the five types produces the
expected sequence. -/
theorem strategySorting_witness :
    mergeAll emptyStatus
        [mkTypeOnly "Type3", mkTypeOnly "Type2", mkTypeOnly "Type1",
         mkTypeOnly ImpersonationProxyStrategyType,
         mkTypeOnly KubeClusterSigningCertificateStrategyType] =
      some { strategies := expectedOrder, kubeConfigInfo := none } :=
  strategySorting _ (by decide)

/-! ## Facts about the steady-state convergence check -/

/-- The polling loop computes exactly the position of the first three
consecutive matching passes. -/
theorem steadyPoll_eq_firstTriple : ∀ obs : List Bool, steadyPoll 0 obs = firstTriple obs
  | [] => rfl
  | [true] => rfl
  | [true, true] => rfl
  | true :: true :: true :: _ => rfl
  | false :: rest => by
    show (steadyPoll 0 rest).map (· + 1) = (firstTriple rest).map (· + 1)
    rw [steadyPoll_eq_firstTriple rest]
  | true :: false :: rest => by
    show ((steadyPoll 0 rest).map (· + 1)).map (· + 1) =
      ((firstTriple rest).map (· + 1)).map (· + 1)
    rw [steadyPoll_eq_firstTriple rest]
  | true :: true :: false :: rest => by
    show (((steadyPoll 0 rest).map (· + 1)).map (· + 1)).map (· + 1) =
      (((firstTriple rest).map (· + 1)).map (· + 1)).map (· + 1)
    rw [steadyPoll_eq_firstTriple rest]

theorem endsTriple_length {p : List Bool} (h : endsTriple p) : 3 ≤ p.length := by
  obtain ⟨q, rfl⟩ := h
  simp

theorem endsTriple_cons {b : Bool} {p : List Bool} (h : endsTriple (b :: p)) :
    endsTriple p ∨ b :: p = [true, true, true] := by
  obtain ⟨q, hq⟩ := h
  cases q with
  | nil => exact Or.inr hq
  | cons c q' =>
    injection hq with h1 h2
    exact Or.inl ⟨q', h2⟩

/-- One-step lifting of the `firstTriple` characterisation over a head that
does not itself complete a leading triple. -/
theorem firstTriple_step {b : Bool} {rest : List Bool}
    (heq : firstTriple (b :: rest) = (firstTriple rest).map (· + 1))
    (hns : (b :: rest).take 3 ≠ [true, true, true])
    (ih : ∀ n, firstTriple rest = some n →
      n ≤ rest.length ∧ endsTriple (rest.take n) ∧
        ∀ m, m < n → ¬ endsTriple (rest.take m)) :
    ∀ n, firstTriple (b :: rest) = some n →
      n ≤ (b :: rest).length ∧ endsTriple ((b :: rest).take n) ∧
        ∀ m, m < n → ¬ endsTriple ((b :: rest).take m) := by
  intro n hn
  rw [heq] at hn
  cases hr : firstTriple rest with
  | none => rw [hr] at hn; cases hn
  | some k =>
    rw [hr] at hn
    simp only [Option.map_some'] at hn
    cases hn
    obtain ⟨h1, h2, h3⟩ := ih k hr
    refine ⟨by simp; omega, ?_, ?_⟩
    · obtain ⟨q, hq⟩ := h2
      exact ⟨b :: q, by rw [List.take_succ_cons, hq]; rfl⟩
    · intro m hm
      cases m with
      | zero =>
        intro hET
        have := endsTriple_length hET
        simp at this
      | succ m' =>
        rw [List.take_succ_cons]
        intro hET
        rcases endsTriple_cons hET with h | h
        · exact h3 m' (Nat.lt_of_succ_lt_succ hm) h
        · apply hns
          injection h with hb htail
          have hm2 : 2 ≤ m' := by
            have := congrArg List.length htail
            simp [List.length_take] at this
            omega
          have h2' : rest.take 2 = [true, true] := by
            have : (rest.take m').take 2 = rest.take 2 := by
              rw [List.take_take, Nat.min_eq_left hm2]
            rw [← this, htail]
            rfl
          rw [show (3 : Nat) = 2 + 1 from rfl, List.take_succ_cons, h2', hb]

/-- `firstTriple` finds the least number of passes whose tail is three
consecutive matches. -/
theorem firstTriple_characterization : ∀ (obs : List Bool) (n : Nat),
    firstTriple obs = some n →
    n ≤ obs.length ∧ endsTriple (obs.take n) ∧ ∀ m, m < n → ¬ endsTriple (obs.take m)
  | [], n, h => by cases h
  | [true], n, h => by cases h
  | [true, true], n, h => by cases h
  | true :: true :: true :: rest, n, h => by
    have hn : (3 : Nat) = n := by
      have : some 3 = some n := h
      injection this
    subst hn
    refine ⟨by simp, ⟨[], rfl⟩, ?_⟩
    intro m hm hET
    have h3 := endsTriple_length hET
    rw [List.length_take] at h3
    omega
  | false :: rest, n, h =>
    firstTriple_step (by rfl) (by intro hc; injection hc with h1 _; cases h1)
      (firstTriple_characterization rest) n h
  | true :: false :: rest, n, h =>
    firstTriple_step (by rfl)
      (by intro hc; injection hc with _ hc2; injection hc2 with h2 _; cases h2)
      (firstTriple_characterization (false :: rest)) n h
  | true :: true :: false :: rest, n, h =>
    firstTriple_step (by rfl)
      (by
        intro hc
        injection hc with _ hc2
        injection hc2 with _ hc3
        injection hc3 with h3 _
        cases h3)
      (firstTriple_characterization (true :: false :: rest)) n h

/-- C8: the steady-state check declares convergence after `n` passes only
when the last three of those passes matched with zero corrective actions and
no earlier point had three consecutive matching passes (so exactly three
consecutive matches are required); and a non-matching pass resets the count
of consecutive matching passes to zero. -/
theorem steadyState_convergence (obs : List Bool) (n : Nat)
    (h : steadyPoll 0 obs = some n) :
    (n ≤ obs.length ∧ endsTriple (obs.take n) ∧
      ∀ m, m < n → ¬ endsTriple (obs.take m)) ∧
    (∀ steadyStateSnapshots rest, steadyPoll steadyStateSnapshots (false :: rest) =
      (steadyPoll 0 rest).map (· + 1)) := by
  constructor
  · apply firstTriple_characterization obs n
    rw [← steadyPoll_eq_firstTriple]
    exact h
  · intro c rest
    rfl

/-- C8 witness: on the pass outcomes `[match, miss, match, match, match]` the
check declares convergence after the fifth pass: the miss reset the counter,
and passes 3–5 are the first three consecutive matches. -/
theorem steadyState_convergence_witness :
    (5 ≤ ([true, false, true, true, true] : List Bool).length ∧
      endsTriple (([true, false, true, true, true] : List Bool).take 5) ∧
      ∀ m, m < 5 → ¬ endsTriple (([true, false, true, true, true] : List Bool).take m)) ∧
    (∀ steadyStateSnapshots rest, steadyPoll steadyStateSnapshots (false :: rest) =
      (steadyPoll 0 rest).map (· + 1)) :=
  steadyState_convergence [true, false, true, true, true] 5 rfl

/-! ## Properties of the spec-modelled Provider and Rotation Controller -/

/-- C6: for every pair the validity predicate accepts, `SetCertKeyContent`
succeeds and a subsequent `CurrentCertKeyContent` returns content
byte-identical to what was set. -/
theorem setCertKeyContent_roundtrip (valid : String → String → Bool)
    (p : Provider) (certPEM keyPEM : String) (h : valid certPEM keyPEM = true) :
    (setCertKeyContent valid p certPEM keyPEM).2 = none ∧
    currentCertKeyContent (setCertKeyContent valid p certPEM keyPEM).1 =
      some (certPEM, keyPEM) := by
  simp [setCertKeyContent, currentCertKeyContent, h]

/-- C6 witness: a concrete accepted pair round-trips byte-identically. -/
theorem setCertKeyContent_roundtrip_witness :
    (setCertKeyContent (fun c k => c == "CERT-PEM" && k == "KEY-PEM")
        { current := none, revision := 0, notified := [] } "CERT-PEM" "KEY-PEM").2 = none ∧
    currentCertKeyContent
        (setCertKeyContent (fun c k => c == "CERT-PEM" && k == "KEY-PEM")
          { current := none, revision := 0, notified := [] } "CERT-PEM" "KEY-PEM").1 =
      some ("CERT-PEM", "KEY-PEM") :=
  setCertKeyContent_roundtrip _ _ "CERT-PEM" "KEY-PEM" (by decide)

/-- C7: for every pair the validity predicate rejects (unparsable PEM or a
key that does not match the certificate), `SetCertKeyContent` returns an
error and the Provider's state — in particular what `CurrentCertKeyContent`
returns — is exactly what it was before the failed call. -/
theorem setCertKeyContent_invalid (valid : String → String → Bool)
    (p : Provider) (certPEM keyPEM : String) (h : valid certPEM keyPEM = false) :
    (setCertKeyContent valid p certPEM keyPEM).2.isSome = true ∧
    (setCertKeyContent valid p certPEM keyPEM).1 = p ∧
    currentCertKeyContent (setCertKeyContent valid p certPEM keyPEM).1 =
      currentCertKeyContent p := by
  simp [setCertKeyContent, currentCertKeyContent, h]

/-- C7 witness: a concrete rejected pair fails and leaves the previously held
content in place. -/
theorem setCertKeyContent_invalid_witness :
    (setCertKeyContent (fun _ _ => false)
        { current := some ("OLD-CERT", "OLD-KEY"), revision := 3, notified := [1, 2, 3] }
        "BAD" "PAIR").2.isSome = true ∧
    (setCertKeyContent (fun _ _ => false)
        { current := some ("OLD-CERT", "OLD-KEY"), revision := 3, notified := [1, 2, 3] }
        "BAD" "PAIR").1 =
      { current := some ("OLD-CERT", "OLD-KEY"), revision := 3, notified := [1, 2, 3] } ∧
    currentCertKeyContent (setCertKeyContent (fun _ _ => false)
        { current := some ("OLD-CERT", "OLD-KEY"), revision := 3, notified := [1, 2, 3] }
        "BAD" "PAIR").1 =
      currentCertKeyContent
        { current := some ("OLD-CERT", "OLD-KEY"), revision := 3, notified := [1, 2, 3] } :=
  setCertKeyContent_invalid _ _ "BAD" "PAIR" rfl

/-- C9: if the persisted serving certificate is missing (deleted) or its
`notAfter` is in the past, one reconciliation cycle mints a replacement whose
`notAfter` is in the future, the replacement reaches both the Resource Store
and the Provider within that cycle, and the write trace puts the durable
store write strictly before the Provider update. -/
theorem reconcileOnce_rotates (now validity renewBefore freshSerial : Nat)
    (st : RotationState) (hv : 0 < validity)
    (hexp : st.storeCert = none ∨ ∃ c, st.storeCert = some c ∧ c.notAfter ≤ now) :
    ∃ minted : CertData,
      (reconcileOnce now validity renewBefore freshSerial st).1.storeCert = some minted ∧
      (reconcileOnce now validity renewBefore freshSerial st).1.providerCert = some minted ∧
      now < minted.notAfter ∧
      (reconcileOnce now validity renewBefore freshSerial st).2 =
        [RotationEvent.storeWrite minted, RotationEvent.providerSet minted] := by
  have hmint : certNeedsMint now renewBefore st.storeCert = true := by
    rcases hexp with h | ⟨c, hc, hle⟩
    · simp [certNeedsMint, h]
    · simp only [certNeedsMint, hc, decide_eq_true_eq]
      omega
  exact ⟨{ notAfter := now + validity, serial := freshSerial },
    by simp [reconcileOnce, hmint],
    by simp [reconcileOnce, hmint],
    by show now < now + validity; omega,
    by simp [reconcileOnce, hmint]⟩

/-- C9 witness: at logical time 10, an expired persisted certificate
(`notAfter = 8`) is replaced in one cycle by a fresh one reaching store and
provider, store write first. -/
theorem reconcileOnce_rotates_witness :
    ∃ minted : CertData,
      (reconcileOnce 10 5 2 1
        { storeCert := some { notAfter := 8, serial := 0 },
          providerCert := some { notAfter := 8, serial := 0 } }).1.storeCert = some minted ∧
      (reconcileOnce 10 5 2 1
        { storeCert := some { notAfter := 8, serial := 0 },
          providerCert := some { notAfter := 8, serial := 0 } }).1.providerCert =
        some minted ∧
      10 < minted.notAfter ∧
      (reconcileOnce 10 5 2 1
        { storeCert := some { notAfter := 8, serial := 0 },
          providerCert := some { notAfter := 8, serial := 0 } }).2 =
        [RotationEvent.storeWrite minted, RotationEvent.providerSet minted] :=
  reconcileOnce_rotates 10 5 2 1 _ (by omega)
    (Or.inr ⟨{ notAfter := 8, serial := 0 }, rfl, by show (8 : Nat) ≤ 10; omega⟩)

end Pinniped
